import Mathlib

/-!
# Verification of `filesharegocli` (src/main.go)

A shallow embedding of the Go CLI wrapper in `src/main.go`, together with a
model — built from the specification — of the content-addressed storage
engine that the wrapper delegates to an external library.

Go strings are modelled as `List Char` (a Go string is a byte sequence; all
characters manipulated by the program are ASCII).  Byte sequences are
modelled as `List Nat`.
-/

namespace FileShare

/-- Go byte sequences. -/
abbrev Bytes := List Nat

/-- Go strings, modelled as lists of characters. -/
abbrev GoStr := List Char

/-! ## Go standard-library string primitives used by `main.go` -/

/-- Index of the last occurrence of `c` in `s`, if any
(`strings.LastIndex(s, "/")` returns this index, or `-1` when absent). -/
def lastIndexOf (c : Char) : GoStr → Option Nat
  | [] => none
  | x :: xs =>
    match lastIndexOf c xs with
    | some n => some (n + 1)
    | none => if x = c then some 0 else none

/-- `strings.LastIndex(s, string(c))` as in Go: `-1` when `c` does not occur. -/
def goLastIndex (c : Char) (s : GoStr) : Int :=
  match lastIndexOf c s with
  | some n => (n : Int)
  | none => -1

/-- Membership of a character in a Go `Trim` cutset. -/
def inCutset (cutset : GoStr) (c : Char) : Bool := cutset.contains c

/-- `strings.TrimLeft`: drop leading characters belonging to the cutset. -/
def goTrimLeft (s cutset : GoStr) : GoStr := s.dropWhile (inCutset cutset)

/-- `strings.TrimRight`: drop trailing characters belonging to the cutset. -/
def goTrimRight (s cutset : GoStr) : GoStr :=
  (s.reverse.dropWhile (inCutset cutset)).reverse

/-- `strings.Trim(s, cutset)`: drop leading and trailing cutset characters. -/
def goTrim (s cutset : GoStr) : GoStr := goTrimRight (goTrimLeft s cutset) cutset

/-! ## `GetCidStrFromString` (src/main.go:237-242)

```go
func GetCidStrFromString(str string) (cidStr string) {
    cidStr = str[strings.LastIndex(str, "/")+1:]
    cidStr = strings.Trim(cidStr, " \r\n")
    return cidStr
}
```
-/

/-- The cutset `" \r\n"` of the `strings.Trim` call. -/
def cidTrimCutset : GoStr := [' ', '\r', '\n']

/-- `GetCidStrFromString` (src/main.go:237-242): take the suffix of the
string after the last `'/'` (Go slicing `str[i+1:]` with `i = -1` when no
slash occurs), then trim spaces, carriage returns and newlines. -/
def GetCidStrFromString (str : GoStr) : GoStr :=
  let cidStr := str.drop (goLastIndex '/' str + 1).toNat
  goTrim cidStr cidTrimCutset

/-- Specification-side description of the stripping step: the substring of
`s` after the last `'/'` character, all of `s` when `s` contains no `'/'`. -/
def dropThroughLastSlash : GoStr → GoStr
  | [] => []
  | x :: xs =>
    if '/' ∈ xs then dropThroughLastSlash xs
    else if x = '/' then xs else x :: xs

theorem lastIndexOf_eq_none {c : Char} {s : GoStr} (h : c ∉ s) :
    lastIndexOf c s = none := by
  induction s with
  | nil => rfl
  | cons x xs ih =>
    simp only [List.mem_cons, not_or] at h
    have hxc : ¬x = c := fun he => h.1 he.symm
    simp [lastIndexOf, ih h.2, hxc]

theorem lastIndexOf_isSome {c : Char} {s : GoStr} (h : c ∈ s) :
    ∃ n, lastIndexOf c s = some n := by
  induction s with
  | nil => cases h
  | cons x xs ih =>
    by_cases hxs : c ∈ xs
    · obtain ⟨n, hn⟩ := ih hxs
      exact ⟨n + 1, by simp [lastIndexOf, hn]⟩
    · have hx : x = c := by
        rcases List.mem_cons.mp h with h' | h'
        · exact h'.symm
        · exact absurd h' hxs
      exact ⟨0, by simp [lastIndexOf, lastIndexOf_eq_none hxs, hx]⟩

theorem not_mem_of_lastIndexOf_eq_none {c : Char} {s : GoStr}
    (h : lastIndexOf c s = none) : c ∉ s := by
  intro hmem
  obtain ⟨n, hn⟩ := lastIndexOf_isSome hmem
  rw [hn] at h
  cases h

/-- The Go slice `str[strings.LastIndex(str, "/")+1:]` computes exactly the
suffix after the last slash. -/
theorem drop_goLastIndex_eq (s : GoStr) :
    s.drop (goLastIndex '/' s + 1).toNat = dropThroughLastSlash s := by
  induction s with
  | nil => rfl
  | cons x xs ih =>
    cases hfind : lastIndexOf '/' xs with
    | some n =>
      have hmem : '/' ∈ xs := by
        by_contra hnot
        rw [lastIndexOf_eq_none hnot] at hfind
        cases hfind
      have hx : goLastIndex '/' (x :: xs) = (n : Int) + 1 := by
        simp [goLastIndex, lastIndexOf, hfind]
      rw [hx]
      have h1 : ((n : Int) + 1 + 1).toNat = n + 1 + 1 := by omega
      have h2 : ((n : Int) + 1).toNat = n + 1 := by omega
      have ihx : xs.drop (n + 1) = dropThroughLastSlash xs := by
        have hh := ih
        rw [goLastIndex, hfind, h2] at hh
        exact hh
      simp only [h1, List.drop_succ_cons, dropThroughLastSlash, if_pos hmem]
      exact ihx
    | none =>
      have hnot : '/' ∉ xs := not_mem_of_lastIndexOf_eq_none hfind
      by_cases hx : x = '/'
      · simp [goLastIndex, lastIndexOf, hfind, hx, dropThroughLastSlash, hnot]
      · simp [goLastIndex, lastIndexOf, hfind, hx, dropThroughLastSlash, hnot]

/-! ## Content-addressed storage engine

Modelled from the spec: the repository delegates chunking, DAG building,
block storage and retrieval to an external library (`ipfsA.Unixfs().Add`,
`.Get`, `.Ls`); none of that code is under `src/`.  The definitions below
follow §3 (data model), §4.1 (Chunker / DAG Builder) and §4.4 (Block
Exchange Engine) of the specification.  The collision-resistant content
hash of §3 is modelled as an injective function, concretely the
serialisation of a block, so a CID is a byte sequence determined by — and
determining — the block it addresses. -/

mutual
/-- A file-system value: a file's bytes, or a directory of named entries. -/
inductive FSTree where
  | file (data : Bytes)
  | dir (entries : FSEntries)
inductive FSEntries where
  | nil
  | cons (name : GoStr) (child : FSTree) (rest : FSEntries)
end

mutual
/-- Modelled from the spec (§3, DAG Node): a block is a leaf chunk of raw
bytes, an internal node listing ordered children, or a directory node
mapping names to children. -/
inductive DagNode where
  | leaf (data : Bytes)
  | branch (children : DagList)
  | dirNode (entries : DirEntries)
inductive DagList where
  | nil
  | cons (head : DagNode) (tail : DagList)
inductive DirEntries where
  | nil
  | cons (name : GoStr) (node : DagNode) (tail : DirEntries)
end

/-- Maximum chunk size of the chunking policy (§4.1): 256 KiB. -/
def maxChunkSize : Nat := 262144

/-- Fixed-size chunking (§4.1): split the content into chunks of at most
`n` bytes at deterministic, position-based boundaries. -/
def chunksOf (n : Nat) (l : Bytes) : List Bytes :=
  if l = [] then []
  else if n = 0 then [l]
  else l.take n :: chunksOf n (l.drop n)
termination_by l.length
decreasing_by
  rename_i h1 h2
  have hl : 0 < l.length := List.length_pos.mpr h1
  have hn : 0 < n := Nat.pos_of_ne_zero h2
  simp only [List.length_drop]
  omega

def concatL : List Bytes → Bytes
  | [] => []
  | c :: cs => c ++ concatL cs

theorem concatL_chunksOf (n : Nat) (hn : n ≠ 0) (l : Bytes) :
    concatL (chunksOf n l) = l := by
  induction l using chunksOf.induct n with
  | case1 => simp [chunksOf, concatL]
  | case2 l h1 h2 => exact absurd h2 hn
  | case3 l h1 h2 ih =>
    rw [chunksOf, if_neg h1, if_neg h2]
    simp [concatL, ih]

def leavesOf : List Bytes → DagList
  | [] => .nil
  | c :: cs => .cons (.leaf c) (leavesOf cs)

/-- Modelled from the spec (§4.1, DAG shape): content that fits in one
chunk becomes a single leaf; larger content becomes an internal node over
the ordered chunk leaves. -/
def buildFileNode (data : Bytes) : DagNode :=
  if data.length ≤ maxChunkSize then .leaf data
  else .branch (leavesOf (chunksOf maxChunkSize data))

mutual
/-- Modelled from the spec (§4.1): build the Merkle-DAG of a file or
directory tree.  Directory entries keep their order (the wrapper hands the
library an already deterministically-ordered listing). -/
def buildTree : FSTree → DagNode
  | .file d => buildFileNode d
  | .dir es => .dirNode (buildEntries es)
def buildEntries : FSEntries → DirEntries
  | .nil => .nil
  | .cons n t rest => .cons n (buildTree t) (buildEntries rest)
end

/-- Join the leaves of an internal file node back into the file's bytes
(§4.4, terminal success: concatenate leaf bytes in order). -/
def joinChunks : DagList → Option Bytes
  | .nil => some []
  | .cons (.leaf d) rest => (joinChunks rest).map (fun t => d ++ t)
  | .cons (.branch _) _ => none
  | .cons (.dirNode _) _ => none

mutual
/-- Modelled from the spec (§4.4): resolve a fully available DAG back into
the file-system value it encodes. -/
def nodeToTree : DagNode → Option FSTree
  | .leaf d => some (.file d)
  | .branch cs => (joinChunks cs).map .file
  | .dirNode es => (entriesToTrees es).map .dir
def entriesToTrees : DirEntries → Option FSEntries
  | .nil => some .nil
  | .cons n nd rest =>
    match nodeToTree nd, entriesToTrees rest with
    | some t, some r => some (.cons n t r)
    | _, _ => none
end

theorem joinChunks_leavesOf (cs : List Bytes) :
    joinChunks (leavesOf cs) = some (concatL cs) := by
  induction cs with
  | nil => rfl
  | cons c cs ih => simp [leavesOf, joinChunks, ih, concatL]

theorem nodeToTree_buildFileNode (d : Bytes) :
    nodeToTree (buildFileNode d) = some (.file d) := by
  rw [buildFileNode]
  by_cases h : d.length ≤ maxChunkSize
  · rw [if_pos h]; rfl
  · rw [if_neg h]
    rw [nodeToTree, joinChunks_leavesOf,
      concatL_chunksOf maxChunkSize (by decide) d]
    rfl

mutual
theorem nodeToTree_buildTree (t : FSTree) :
    nodeToTree (buildTree t) = some t := by
  match t with
  | .file d => exact nodeToTree_buildFileNode d
  | .dir es =>
    rw [buildTree, nodeToTree, entriesToTrees_buildEntries es]
    rfl
theorem entriesToTrees_buildEntries (es : FSEntries) :
    entriesToTrees (buildEntries es) = some es := by
  match es with
  | .nil => rfl
  | .cons n t rest =>
    rw [buildEntries, entriesToTrees, nodeToTree_buildTree t,
      entriesToTrees_buildEntries rest]
end

/-! ### CIDs as serialised blocks

Modelled from the spec (§3, Block): `CID = Hash(bytes)` with a
deterministic, collision-resistant hash.  A collision-resistant hash is
modelled as an injective function; concretely the CID of a node is the
serialisation of the whole DAG under it. -/

mutual
def serNode : DagNode → Bytes
  | .leaf d => 0 :: d.length :: d
  | .branch cs => 1 :: dagListLen cs :: serList cs
  | .dirNode es => 2 :: dirEntriesLen es :: serEntries es
def serList : DagList → Bytes
  | .nil => []
  | .cons n rest => serNode n ++ serList rest
def serEntries : DirEntries → Bytes
  | .nil => []
  | .cons name nd rest =>
    name.length :: (name.map Char.toNat ++ (serNode nd ++ serEntries rest))
def dagListLen : DagList → Nat
  | .nil => 0
  | .cons _ rest => dagListLen rest + 1
def dirEntriesLen : DirEntries → Nat
  | .nil => 0
  | .cons _ _ rest => dirEntriesLen rest + 1
end

mutual
def nodeSize : DagNode → Nat
  | .leaf _ => 1
  | .branch cs => dagListSize cs + 1
  | .dirNode es => dirEntriesSize es + 1
def dagListSize : DagList → Nat
  | .nil => 0
  | .cons n rest => nodeSize n + dagListSize rest
def dirEntriesSize : DirEntries → Nat
  | .nil => 0
  | .cons _ n rest => nodeSize n + dirEntriesSize rest
end

mutual
/-- Decoder for serialised DAGs, with explicit fuel bounding the recursion
depth (a decode step on well-formed input always consumes a node). -/
def decNode (fuel : Nat) (b : Bytes) : Option (DagNode × Bytes) :=
  match fuel, b with
  | 0, _ => none
  | _ + 1, 0 :: len :: rest =>
    if len ≤ rest.length then some (.leaf (rest.take len), rest.drop len)
    else none
  | fuel + 1, 1 :: cnt :: rest =>
    match decList fuel cnt rest with
    | some (cs, r) => some (.branch cs, r)
    | none => none
  | fuel + 1, 2 :: cnt :: rest =>
    match decEntries fuel cnt rest with
    | some (es, r) => some (.dirNode es, r)
    | none => none
  | _ + 1, _ => none
termination_by (fuel, 0)
def decList (fuel cnt : Nat) (b : Bytes) : Option (DagList × Bytes) :=
  match cnt with
  | 0 => some (.nil, b)
  | cnt + 1 =>
    match decNode fuel b with
    | some (n, r) =>
      match decList fuel cnt r with
      | some (cs, r2) => some (.cons n cs, r2)
      | none => none
    | none => none
termination_by (fuel, cnt + 1)
def decEntries (fuel cnt : Nat) (b : Bytes) : Option (DirEntries × Bytes) :=
  match cnt, b with
  | 0, _ => some (.nil, b)
  | cnt + 1, nlen :: rest =>
    if nlen ≤ rest.length then
      let name := (rest.take nlen).map Char.ofNat
      match decNode fuel (rest.drop nlen) with
      | some (nd, r) =>
        match decEntries fuel cnt r with
        | some (es, r2) => some (.cons name nd es, r2)
        | none => none
      | none => none
    else none
  | _ + 1, [] => none
termination_by (fuel, cnt + 1)
end

mutual
/-- Serialisation round-trip: decoding a serialised node with enough fuel
recovers the node and leaves the remaining input untouched. -/
theorem decNode_serNode (fuel : Nat) (n : DagNode) (rest : Bytes)
    (h : nodeSize n ≤ fuel) : decNode fuel (serNode n ++ rest) = some (n, rest) := by
  match n, fuel with
  | .leaf d, fuel + 1 =>
    rw [serNode]
    simp only [List.cons_append, decNode]
    rw [if_pos (by simp), List.take_left, List.drop_left]
  | .branch cs, fuel + 1 =>
    rw [serNode]
    simp only [List.cons_append, decNode]
    rw [decList_serList fuel cs rest (by
      have hs : nodeSize (.branch cs) = dagListSize cs + 1 := rfl
      omega)]
  | .dirNode es, fuel + 1 =>
    rw [serNode]
    simp only [List.cons_append, decNode]
    rw [decEntries_serEntries fuel es rest (by
      have hs : nodeSize (.dirNode es) = dirEntriesSize es + 1 := rfl
      omega)]
theorem decList_serList (fuel : Nat) (cs : DagList) (rest : Bytes)
    (h : dagListSize cs ≤ fuel) :
    decList fuel (dagListLen cs) (serList cs ++ rest) = some (cs, rest) := by
  match cs with
  | .nil => simp [decList, serList, dagListLen]
  | .cons n cs' =>
    have hsz : dagListSize (.cons n cs') = nodeSize n + dagListSize cs' := rfl
    rw [serList, dagListLen, List.append_assoc]
    simp [decList, decNode_serNode fuel n (serList cs' ++ rest) (by omega),
      decList_serList fuel cs' rest (by omega)]
theorem decEntries_serEntries (fuel : Nat) (es : DirEntries) (rest : Bytes)
    (h : dirEntriesSize es ≤ fuel) :
    decEntries fuel (dirEntriesLen es) (serEntries es ++ rest) = some (es, rest) := by
  match es with
  | .nil => simp [decEntries, serEntries, dirEntriesLen]
  | .cons name nd es' =>
    have hsz : dirEntriesSize (.cons name nd es') = nodeSize nd + dirEntriesSize es' := rfl
    rw [serEntries, dirEntriesLen]
    simp only [List.cons_append, decEntries]
    rw [List.append_assoc, List.append_assoc]
    rw [if_pos (by simp)]
    have htake : ((name.map Char.toNat) ++ (serNode nd ++ (serEntries es' ++ rest))).take
        name.length = name.map Char.toNat := by
      simp
    have hdrop : ((name.map Char.toNat) ++ (serNode nd ++ (serEntries es' ++ rest))).drop
        name.length = serNode nd ++ (serEntries es' ++ rest) := by
      simp
    rw [htake, hdrop]
    have hname : (name.map Char.toNat).map Char.ofNat = name := by
      rw [List.map_map]
      simp [Function.comp_def, Char.ofNat_toNat]
    rw [hname]
    simp [decNode_serNode fuel nd (serEntries es' ++ rest) (by omega),
      decEntries_serEntries fuel es' rest (by omega)]
end

mutual
/-- Every node contributes at least one byte to its serialisation, so the
serialisation's length is enough fuel for the decoder. -/
theorem nodeSize_le_serNode_length (n : DagNode) : nodeSize n ≤ (serNode n).length := by
  match n with
  | .leaf d => simp [nodeSize, serNode]
  | .branch cs =>
    have hh := dagListSize_le_serList_length cs
    simp only [nodeSize, serNode, List.length_cons]
    omega
  | .dirNode es =>
    have hh := dirEntriesSize_le_serEntries_length es
    simp only [nodeSize, serNode, List.length_cons]
    omega
theorem dagListSize_le_serList_length (cs : DagList) :
    dagListSize cs ≤ (serList cs).length := by
  match cs with
  | .nil => simp [dagListSize, serList]
  | .cons n rest =>
    have h1 := nodeSize_le_serNode_length n
    have h2 := dagListSize_le_serList_length rest
    simp only [dagListSize, serList, List.length_append]
    omega
theorem dirEntriesSize_le_serEntries_length (es : DirEntries) :
    dirEntriesSize es ≤ (serEntries es).length := by
  match es with
  | .nil => simp [dirEntriesSize, serEntries]
  | .cons name n rest =>
    have h1 := nodeSize_le_serNode_length n
    have h2 := dirEntriesSize_le_serEntries_length rest
    simp only [dirEntriesSize, serEntries, List.length_cons, List.length_append]
    omega
end

/-- Modelled from the spec (§4.4, Block Exchange Engine): fetching a root
CID resolves the DAG it addresses and reassembles the file-system value.
Under the injective-hash model the CID carries the serialised DAG, so a
fully successful fetch amounts to decoding it. -/
def fetchDag (cid : Bytes) : Option FSTree :=
  match decNode cid.length cid with
  | some (n, rest) => if rest = [] then nodeToTree n else none
  | none => none

theorem fetchDag_serNode (n : DagNode) : fetchDag (serNode n) = nodeToTree n := by
  rw [fetchDag]
  have hdec : decNode (serNode n).length (serNode n) = some (n, []) := by
    have hh := decNode_serNode (serNode n).length n [] (nodeSize_le_serNode_length n)
    rwa [List.append_nil] at hh
  rw [hdec]
  simp

theorem fetchDag_buildTree (t : FSTree) : fetchDag (serNode (buildTree t)) = some t := by
  rw [fetchDag_serNode, nodeToTree_buildTree]

/-! ## The wrapper's publish pipeline (src/main.go:175-235)

`UploadFiles` stats the input; a plain file is wrapped into a one-entry
directory named by `filepath.Base` of the input path before being handed
to the library's `Add` (src/main.go:192-197); a directory is handed over
unchanged. -/

/-- Trailing-slash stripping step of Go's `filepath.Base`. -/
def stripTrailingSlashes (p : GoStr) : GoStr :=
  (p.reverse.dropWhile (fun c => c = '/')).reverse

/-- Go's `filepath.Base`: the last element of the path after removing
trailing slashes; "." for the empty path, "/" for an all-slash path. -/
def goFilepathBase (p : GoStr) : GoStr :=
  if p = [] then ['.']
  else
    let q := stripTrailingSlashes p
    if q = [] then ['/'] else dropThroughLastSlash q

/-- The wrap step of `UploadFiles` (src/main.go:192-197): a single file
becomes a one-entry directory keyed by the base name of the input path; a
directory is passed through unchanged. -/
def wrapInput (path : GoStr) (t : FSTree) : FSTree :=
  match t with
  | .file d => .dir (.cons (goFilepathBase path) (.file d) .nil)
  | .dir es => .dir es

mutual
/-- CIDs of every constituent block of a DAG (§4.1: `Build` writes every
constituent block to the block store). -/
def nodeBlocks : DagNode → List Bytes
  | .leaf d => [serNode (.leaf d)]
  | .branch cs => serNode (.branch cs) :: dagListBlocks cs
  | .dirNode es => serNode (.dirNode es) :: dirEntriesBlocks es
def dagListBlocks : DagList → List Bytes
  | .nil => []
  | .cons n rest => nodeBlocks n ++ dagListBlocks rest
def dirEntriesBlocks : DirEntries → List Bytes
  | .nil => []
  | .cons _ n rest => nodeBlocks n ++ dirEntriesBlocks rest
end

/-- A node/store instance: the per-run ephemeral repository (§6, persisted
state).  Distinct instances differ in their repository path and in the
blocks they already hold. -/
structure NodeInstance where
  repoPath : GoStr
  store : List Bytes

/-- Decimal rendering of a CID's bytes, standing in for `cid.String()`. -/
def cidRender (b : Bytes) : GoStr := b.flatMap (fun n => Nat.toDigits 10 n ++ ['-'])

structure UploadPureOut where
  cid : Bytes
  cidStr : GoStr
  added : FSTree
  inst : NodeInstance

/-- The publish pipeline: wrap the input as `UploadFiles` does, build the
DAG (modelled from §4.1), record its blocks in the instance's store, and
return the root CID that the wrapper prints. -/
def UploadFilesPure (inst : NodeInstance) (path : GoStr) (input : FSTree) :
    UploadPureOut :=
  let wrapped := wrapInput path input
  let root := buildTree wrapped
  { cid := serNode root
    cidStr := cidRender (serNode root)
    added := wrapped
    inst := { inst with store := inst.store ++ nodeBlocks root } }

/-! ## Control-flow embedding of the wrapper (src/main.go)

The functions below mirror `main.go` statement by statement.  Outcomes of
calls into the external library and the operating system (plugin loading,
repo creation, `Stat`, `Add`, `Ls`, `Get`, `MkdirAll`, `WriteTo`, OS
signals) are inputs, supplied in an environment record; the embedding
decides only what the wrapper's own code decides: ordering, wrapping,
error checks, panics, string manipulation and returned values. -/

/-- A Go error value, identified with its message. -/
abbrev GoErr := GoStr

/-- Characters of a string literal. -/
def strL (s : String) : GoStr := s.data

/-- Process-wide state: whether `loadPluginsOnce` (src/main.go:147) has
already run its function. -/
structure ProcState where
  pluginsDone : Bool
  deriving DecidableEq

def initialProcState : ProcState := ⟨false⟩

/-- Environment for one `SpawnEphemeral` call: outcomes of `SetupPlugins`
(were it to run), `CreateTempRepo`, `CreateNode` and `coreapi.NewCoreAPI`,
plus the temporary repo path handed out by `os.MkdirTemp`. -/
structure SpawnEnv where
  setupErr : Option GoErr
  repoErr : Option GoErr
  nodeErr : Option GoErr
  apiErr : Option GoErr
  repoPath : GoStr
  deriving DecidableEq

inductive SpawnResult where
  | ok (repoPath : GoStr)
  | err (e : GoErr)
  deriving DecidableEq

/-- The part of `SpawnEphemeral` after the plugin-once block
(src/main.go:159-172): temp repo, node, core API. -/
def spawnAfterPlugins (env : SpawnEnv) : SpawnResult :=
  match env.repoErr with
  | some e => .err (strL "failed to create temp repo: " ++ e)
  | none =>
    match env.nodeErr with
    | some e => .err e
    | none =>
      match env.apiErr with
      | some e => .err e
      | none => .ok env.repoPath

/-- `SpawnEphemeral` (src/main.go:150-173).  `loadPluginsOnce.Do` runs
`SetupPlugins` only if it has never run; the local `onceErr` is non-nil
only when the closure ran in this very call and failed — when the closure
is skipped, `onceErr` keeps its zero value `nil`.  Returns the result, the
new process state, and whether `SetupPlugins` was executed by this call. -/
def SpawnEphemeral (env : SpawnEnv) (st : ProcState) :
    SpawnResult × ProcState × Bool :=
  if st.pluginsDone then
    (spawnAfterPlugins env, st, false)
  else
    match env.setupErr with
    | some e => (.err e, ⟨true⟩, true)
    | none => (spawnAfterPlugins env, ⟨true⟩, true)

inductive StartResult where
  | ok (repoPath : GoStr)
  | panicked (msg : GoStr)
  deriving DecidableEq

/-- `StartIpfsNode` (src/main.go:130-145): spawn an ephemeral node and
panic on failure; on success the returned `err` is nil. -/
def StartIpfsNode (env : SpawnEnv) (st : ProcState) :
    StartResult × ProcState × Bool :=
  match SpawnEphemeral env st with
  | (.ok h, st', ran) => (.ok h, st', ran)
  | (.err e, st', ran) =>
    (.panicked (strL "failed to spawn ephemeral node: " ++ e), st', ran)

/-- OS signals; `signal.Notify(quitChannel, syscall.SIGINT, syscall.SIGTERM)`
(src/main.go:227) relays exactly the first two kinds. -/
inductive GoSignal where
  | sigint
  | sigterm
  | other (code : Nat)
  deriving DecidableEq

def isTermSignal : GoSignal → Bool
  | .sigint => true
  | .sigterm => true
  | .other _ => false

/-- The value handed to `ipfsA.Unixfs().Add` (src/main.go:193-199): the
serial file itself for a directory input, or a one-entry
`files.NewSliceDirectory` keyed by `filepath.Base(flagFilePath)` for a
plain file input. -/
inductive AddArg where
  | serialFile (path : GoStr)
  | sliceDirectory (baseName : GoStr) (path : GoStr)
  deriving DecidableEq

/-- Environment for one `UploadFiles` call. -/
structure UploadEnv where
  spawn : SpawnEnv
  statErr : Option GoErr
  serialErr : Option GoErr
  stat2Err : Option GoErr
  isDir : Bool
  addErr : Option GoErr
  addCid : GoStr
  lsErr : Option GoErr
  sizeErr : Option GoErr
  signals : List GoSignal
  deriving DecidableEq

inductive UploadOutcome where
  | panicked (msg : GoStr)
  | blocked
  | returned (cidStr : GoStr) (err : Option GoErr)
  deriving DecidableEq

structure UploadOut where
  outcome : UploadOutcome
  addArg : Option AddArg
  printedCid : Option GoStr
  state : ProcState
  setupRan : Bool
  deriving DecidableEq

/-- `UploadFiles` (src/main.go:175-235), following the source line by
line: start the node, stat the input, wrap a plain file into a one-entry
directory, `Add`, print the CID, `Ls`, `Size`, then block on the signal
channel; every non-nil error panics.  The final `return cidFile.String(),
err` is reached only after a SIGINT or SIGTERM was received, with `err`
holding the (necessarily nil) error of the last checked call. -/
def UploadFiles (env : UploadEnv) (st : ProcState) (flagFilePath : GoStr) :
    UploadOut :=
  match StartIpfsNode env.spawn st with
  | (.panicked m, st', ran) => ⟨.panicked m, none, none, st', ran⟩
  | (.ok _, st', ran) =>
    match env.statErr with
    | some e => ⟨.panicked (strL "error: " ++ e), none, none, st', ran⟩
    | none =>
    match env.serialErr with
    | some e => ⟨.panicked (strL "error: " ++ e), none, none, st', ran⟩
    | none =>
    match env.stat2Err with
    | some e => ⟨.panicked (strL "error: " ++ e), none, none, st', ran⟩
    | none =>
    let someFile : AddArg :=
      if env.isDir then .serialFile flagFilePath
      else .sliceDirectory (goFilepathBase flagFilePath) flagFilePath
    match env.addErr with
    | some e => ⟨.panicked (strL "error: " ++ e), some someFile, none, st', ran⟩
    | none =>
    match env.lsErr with
    | some e =>
      ⟨.panicked (strL "could not find Ls from Cid: " ++ e), some someFile,
        some env.addCid, st', ran⟩
    | none =>
    match env.sizeErr with
    | some e =>
      ⟨.panicked (strL "error: " ++ e), some someFile, some env.addCid, st', ran⟩
    | none =>
    match env.signals.find? (fun s => isTermSignal s) with
    | some _ =>
      ⟨.returned env.addCid none, some someFile, some env.addCid, st', ran⟩
    | none => ⟨.blocked, some someFile, some env.addCid, st', ran⟩

/-! ### Go's `filepath.Clean` (used at src/main.go:290) -/

/-- Split a string on a separator character; always returns at least one
(possibly empty) field. -/
def splitOnChar (sep : Char) : GoStr → List GoStr
  | [] => [[]]
  | x :: xs =>
    match splitOnChar sep xs with
    | [] => [[x]]
    | s :: rest => if x = sep then [] :: s :: rest else (x :: s) :: rest

def joinSegs : List GoStr → GoStr
  | [] => []
  | [s] => s
  | s :: rest => s ++ '/' :: joinSegs rest

/-- Segment processing of Go's `filepath.Clean`: drop empty and `.`
segments, resolve `..` against the preceding segment (or keep it when
nothing precedes and the path is relative; drop it at a root). -/
def pathCleanCore (rooted : Bool) (out : List GoStr) : List GoStr → List GoStr
  | [] => out
  | seg :: rest =>
    if seg = [] ∨ seg = ['.'] then pathCleanCore rooted out rest
    else if seg = ['.', '.'] then
      if out ≠ [] ∧ out.getLast? ≠ some ['.', '.'] then
        pathCleanCore rooted out.dropLast rest
      else if rooted then pathCleanCore rooted out rest
      else pathCleanCore rooted (out ++ [seg]) rest
    else pathCleanCore rooted (out ++ [seg]) rest

/-- Go's `filepath.Clean` for slash-separated paths: shortest equivalent
path, `.` for an empty result. -/
def pathClean (p : GoStr) : GoStr :=
  if p = [] then ['.']
  else
    let rooted : Bool := p.head? == some '/'
    let segs := pathCleanCore rooted [] (splitOnChar '/' p)
    let joined := joinSegs segs
    let full := if rooted then '/' :: joined else joined
    if full = [] then ['.'] else full

/-! ### `DownloadFromCid` (src/main.go:244-298) -/

/-- Whether a string is even CID-shaped.  Modelled from the spec
(glossary): a CID is a hash-derived, self-describing identifier; its
string rendering is non-empty and alphanumeric (multibase), so `cid.Parse`
rejects anything else. -/
def cidShaped (s : GoStr) : Bool := !s.isEmpty && s.all (fun c => c.isAlphanum)

/-- Environment for one `DownloadFromCid` call: outcomes of the library
calls it makes. -/
structure DownloadEnv where
  spawn : SpawnEnv
  parseValid : Bool
  getErr : Option GoErr
  lsErr : Option GoErr
  mkdirErr : Option GoErr
  writeErr : Option GoErr
  deriving DecidableEq

/-- `cid.Parse` acceptance: the environment's verdict, which can only be
positive on a CID-shaped string. -/
def cidParseOk (env : DownloadEnv) (s : GoStr) : Bool :=
  env.parseValid && cidShaped s

inductive DownloadOutcome where
  | panicked (msg : GoStr)
  | returned (outputPath : GoStr) (err : Option GoErr) (progress : Int)
  deriving DecidableEq

structure DownloadOut where
  outcome : DownloadOutcome
  parsedCidStr : Option GoStr
  mkdirArg : Option GoStr
  writeTarget : Option GoStr
  state : ProcState
  setupRan : Bool
  deriving DecidableEq

/-- `DownloadFromCid` (src/main.go:244-298), following the source line by
line: start the node, strip the CID string with `GetCidStrFromString`,
parse it, `Get` the root node, `Ls` it, build the output path
(`shouldWorkButNot` is the constant `false` of src/main.go:278),
`MkdirAll("Download", 0o777)`, and `files.WriteTo` the node at
`filepath.Clean(outputPath)`; every non-nil error panics.  On success it
returns `(outputPath, nil, 100)`. -/
def DownloadFromCid (env : DownloadEnv) (st : ProcState) (cidInput : GoStr) :
    DownloadOut :=
  match StartIpfsNode env.spawn st with
  | (.panicked m, st', ran) => ⟨.panicked m, none, none, none, st', ran⟩
  | (.ok _, st', ran) =>
    let cidStr := GetCidStrFromString cidInput
    if cidParseOk env cidStr then
      match env.getErr with
      | some e => ⟨.panicked (strL "error: " ++ e), some cidStr, none, none, st', ran⟩
      | none =>
      match env.lsErr with
      | some e =>
        ⟨.panicked (strL "could not find Ls info from Cid: " ++ e), some cidStr,
          none, none, st', ran⟩
      | none =>
      let shouldWorkButNot := false
      let outputPath := if shouldWorkButNot then ['.'] else strL "./Download/" ++ cidStr
      match env.mkdirErr with
      | some e =>
        ⟨.panicked (strL "error: " ++ e), some cidStr, some (strL "Download"),
          none, st', ran⟩
      | none =>
      match env.writeErr with
      | some e =>
        ⟨.panicked (strL "error: " ++ e), some cidStr, some (strL "Download"),
          some (pathClean outputPath), st', ran⟩
      | none =>
        ⟨.returned outputPath none 100, some cidStr, some (strL "Download"),
          some (pathClean outputPath), st', ran⟩
    else ⟨.panicked (strL "error: cid parse failure"), some cidStr, none, none, st', ran⟩

/-! ### `main` (src/main.go:300-319) -/

/-- What one invocation of `main` does after flag parsing. -/
inductive MainAction where
  | download (cidArg : GoStr)
  | upload (pathArg : GoStr)
  | usage
  | silent
  deriving DecidableEq

/-- `main` (src/main.go:300-319): `-c` non-empty runs the download (the
`-f` value is never consulted), otherwise `-f` non-empty runs the upload,
otherwise the usage text is printed and nothing runs. -/
def mainAction (flagCid flagFilePath : GoStr) : MainAction :=
  if flagCid ≠ [] ∨ flagFilePath ≠ [] then
    if flagCid ≠ [] then .download flagCid
    else if flagFilePath ≠ [] then .upload flagFilePath
    else .silent
  else .usage

/-- Exit status of a Go process that dies from an uncaught panic. -/
def goPanicExitCode : Nat := 2

/-- Process exit status in publish mode: `none` while the process is still
blocked on the signal channel. -/
def publishExitCode : UploadOutcome → Option Nat
  | .panicked _ => some goPanicExitCode
  | .blocked => none
  | .returned _ _ => some 0

/-- Process exit status in fetch mode. -/
def fetchExitCode : DownloadOutcome → Nat
  | .panicked _ => goPanicExitCode
  | .returned _ _ _ => 0

/-! ## Provider discovery of the Block Exchange Engine

Modelled from the spec: the fetch path (`Unixfs().Get`) is delegated to
the external library; §4.3 (Content Router), §4.4 (Block Exchange Engine)
and §7 (error taxonomy) describe the engine a from-scratch implementation
would run.  A fetch session repeatedly asks `FindProviders` for the root
CID (each lookup bounded by its own timeout), up to a retry budget and
never beyond the fetch deadline; exhausting retries or reaching the
deadline with zero providers ever found is the terminal failure
`NoProvidersFound` (§7: "terminal failure after retry budget exhausted —
reported to user as content unavailable"). -/

inductive DiscoveryResult where
  | providers (ps : List Nat) (elapsed : Nat)
  | noProviders (elapsed : Nat)
  deriving DecidableEq

structure FetchCfg where
  deadline : Nat
  queryTimeout : Nat
  retryBudget : Nat
  deriving DecidableEq

/-- One discovery loop: `oracle i` is what the `i`-th `FindProviders`
lookup returns.  Arguments: remaining retries, lookup index, elapsed time
(invariant: at most the deadline). -/
def providerDiscovery (oracle : Nat → List Nat) (cfg : FetchCfg) :
    Nat → Nat → Nat → DiscoveryResult
  | 0, _, elapsed => .noProviders elapsed
  | r + 1, i, elapsed =>
    if elapsed + cfg.queryTimeout ≤ cfg.deadline then
      match oracle i with
      | [] => providerDiscovery oracle cfg r (i + 1) (elapsed + cfg.queryTimeout)
      | ps => .providers ps (elapsed + cfg.queryTimeout)
    else .noProviders cfg.deadline

/-- Provider discovery for a fetch session, from its start. -/
def FetchProviders (oracle : Nat → List Nat) (cfg : FetchCfg) : DiscoveryResult :=
  providerDiscovery oracle cfg cfg.retryBudget 0 0

theorem providerDiscovery_noProviders (oracle : Nat → List Nat) (cfg : FetchCfg)
    (hempty : ∀ i, oracle i = []) :
    ∀ (r i elapsed : Nat), elapsed ≤ cfg.deadline →
      ∃ t, providerDiscovery oracle cfg r i elapsed = .noProviders t ∧
        t ≤ cfg.deadline := by
  intro r
  induction r with
  | zero => exact fun i elapsed he => ⟨elapsed, rfl, he⟩
  | succ r ih =>
    intro i elapsed he
    rw [providerDiscovery]
    by_cases hq : elapsed + cfg.queryTimeout ≤ cfg.deadline
    · rw [if_pos hq, hempty i]
      exact ih (i + 1) (elapsed + cfg.queryTimeout) hq
    · rw [if_neg hq]
      exact ⟨cfg.deadline, rfl, le_refl _⟩

/-! ## Lemmas about the stripping step -/

theorem dropThroughLastSlash_of_not_mem {s : GoStr} (h : '/' ∉ s) :
    dropThroughLastSlash s = s := by
  cases s with
  | nil => rfl
  | cons x xs =>
    simp only [List.mem_cons, not_or] at h
    rw [dropThroughLastSlash, if_neg h.2, if_neg (fun he => h.1 he.symm)]

theorem dropThroughLastSlash_append (a : GoStr) {b : GoStr} (h : '/' ∉ b) :
    dropThroughLastSlash (a ++ '/' :: b) = b := by
  induction a with
  | nil =>
    simp only [List.nil_append]
    rw [dropThroughLastSlash, if_neg h, if_pos rfl]
  | cons x a' ih =>
    have hmem : '/' ∈ a' ++ '/' :: b := by
      exact List.mem_append.mpr (Or.inr (List.mem_cons_self _ _))
    simp only [List.cons_append]
    rw [dropThroughLastSlash, if_pos hmem]
    exact ih

theorem GetCidStrFromString_eq (s : GoStr) :
    GetCidStrFromString s = goTrim (dropThroughLastSlash s) cidTrimCutset := by
  rw [GetCidStrFromString, drop_goLastIndex_eq]

/-! ## Shape lemmas for the control-flow embedding -/

/-- Conditions under which `SpawnEphemeral` fails (and hence its callers
panic): a setup error on the very first call, or any repo/node/api error. -/
def spawnFatal (st : ProcState) (env : SpawnEnv) : Prop :=
  (st.pluginsDone = false ∧ env.setupErr ≠ none) ∨
    env.repoErr ≠ none ∨ env.nodeErr ≠ none ∨ env.apiErr ≠ none

theorem SpawnEphemeral_ok (env : SpawnEnv) (st : ProcState)
    (h : ¬ spawnFatal st env) :
    SpawnEphemeral env st = (.ok env.repoPath, ⟨true⟩, !st.pluginsDone) := by
  rw [spawnFatal] at h
  push_neg at h
  obtain ⟨hsetup, hrepo, hnode, hapi⟩ := h
  have hafter : spawnAfterPlugins env = .ok env.repoPath := by
    rw [spawnAfterPlugins, hrepo, hnode, hapi]
  rcases st with ⟨b⟩
  cases b with
  | true => rw [SpawnEphemeral, if_pos rfl, hafter]; rfl
  | false =>
    have hs : env.setupErr = none := hsetup rfl
    rw [SpawnEphemeral, if_neg (by simp), hs, hafter]
    rfl

theorem SpawnEphemeral_fatal (env : SpawnEnv) (st : ProcState)
    (h : spawnFatal st env) : ∃ e, (SpawnEphemeral env st).1 = .err e := by
  rcases st with ⟨b⟩
  cases b with
  | false =>
    rcases hs : env.setupErr with _ | e
    · have hafter : ∃ e, spawnAfterPlugins env = .err e := by
        rcases h with ⟨_, hne⟩ | hr | hn | ha
        · exact absurd hs hne
        · rcases hr' : env.repoErr with _ | e1
          · exact absurd hr' hr
          · exact ⟨_, by rw [spawnAfterPlugins, hr']⟩
        · rcases hr' : env.repoErr with _ | e1
          · rcases hn' : env.nodeErr with _ | e2
            · exact absurd hn' hn
            · exact ⟨e2, by rw [spawnAfterPlugins, hr', hn']⟩
          · exact ⟨_, by rw [spawnAfterPlugins, hr']⟩
        · rcases hr' : env.repoErr with _ | e1
          · rcases hn' : env.nodeErr with _ | e2
            · rcases ha' : env.apiErr with _ | e3
              · exact absurd ha' ha
              · exact ⟨e3, by rw [spawnAfterPlugins, hr', hn', ha']⟩
            · exact ⟨e2, by rw [spawnAfterPlugins, hr', hn']⟩
          · exact ⟨_, by rw [spawnAfterPlugins, hr']⟩
      obtain ⟨e, he⟩ := hafter
      exact ⟨e, by rw [SpawnEphemeral, if_neg (by simp), hs, he]⟩
    · exact ⟨e, by rw [SpawnEphemeral, if_neg (by simp), hs]⟩
  | true =>
    have hafter : ∃ e, spawnAfterPlugins env = .err e := by
      rcases h with ⟨hfalse, _⟩ | hr | hn | ha
      · cases hfalse
      · rcases hr' : env.repoErr with _ | e1
        · exact absurd hr' hr
        · exact ⟨_, by rw [spawnAfterPlugins, hr']⟩
      · rcases hr' : env.repoErr with _ | e1
        · rcases hn' : env.nodeErr with _ | e2
          · exact absurd hn' hn
          · exact ⟨e2, by rw [spawnAfterPlugins, hr', hn']⟩
        · exact ⟨_, by rw [spawnAfterPlugins, hr']⟩
      · rcases hr' : env.repoErr with _ | e1
        · rcases hn' : env.nodeErr with _ | e2
          · rcases ha' : env.apiErr with _ | e3
            · exact absurd ha' ha
            · exact ⟨e3, by rw [spawnAfterPlugins, hr', hn', ha']⟩
          · exact ⟨e2, by rw [spawnAfterPlugins, hr', hn']⟩
        · exact ⟨_, by rw [spawnAfterPlugins, hr']⟩
    obtain ⟨e, he⟩ := hafter
    exact ⟨e, by rw [SpawnEphemeral, if_pos rfl, he]⟩

theorem StartIpfsNode_ok (env : SpawnEnv) (st : ProcState)
    (h : ¬ spawnFatal st env) :
    StartIpfsNode env st = (.ok env.repoPath, ⟨true⟩, !st.pluginsDone) := by
  rw [StartIpfsNode, SpawnEphemeral_ok env st h]

theorem StartIpfsNode_fatal (env : SpawnEnv) (st : ProcState)
    (h : spawnFatal st env) : ∃ m, (StartIpfsNode env st).1 = .panicked m := by
  obtain ⟨e, he⟩ := SpawnEphemeral_fatal env st h
  rcases hS : SpawnEphemeral env st with ⟨r, st', ran⟩
  rw [hS] at he
  simp only at he
  rw [StartIpfsNode, hS, he]
  exact ⟨_, rfl⟩

/-- Every condition that makes `UploadFiles` panic. -/
def uploadFatal (st : ProcState) (env : UploadEnv) : Prop :=
  spawnFatal st env.spawn ∨ env.statErr ≠ none ∨ env.serialErr ≠ none ∨
    env.stat2Err ≠ none ∨ env.addErr ≠ none ∨ env.lsErr ≠ none ∨
    env.sizeErr ≠ none

theorem UploadFiles_ok (env : UploadEnv) (st : ProcState) (p : GoStr)
    (hspawn : ¬ spawnFatal st env.spawn) (h1 : env.statErr = none)
    (h2 : env.serialErr = none) (h3 : env.stat2Err = none)
    (h4 : env.addErr = none) (h5 : env.lsErr = none) (h6 : env.sizeErr = none) :
    UploadFiles env st p =
      ⟨(match env.signals.find? (fun s => isTermSignal s) with
        | some _ => .returned env.addCid none
        | none => .blocked),
        some (if env.isDir then AddArg.serialFile p
          else .sliceDirectory (goFilepathBase p) p),
        some env.addCid, ⟨true⟩, !st.pluginsDone⟩ := by
  rw [UploadFiles, StartIpfsNode_ok env.spawn st hspawn]
  simp only [h1, h2, h3, h4, h5, h6]
  cases env.signals.find? (fun s => isTermSignal s) <;> rfl

theorem UploadFiles_fatal (env : UploadEnv) (st : ProcState) (p : GoStr)
    (h : uploadFatal st env) :
    ∃ m, (UploadFiles env st p).outcome = .panicked m := by
  by_cases hsp : spawnFatal st env.spawn
  · obtain ⟨m, hm⟩ := StartIpfsNode_fatal env.spawn st hsp
    rcases hS : StartIpfsNode env.spawn st with ⟨r, st2, ran⟩
    rw [hS] at hm
    simp only at hm
    subst hm
    rw [UploadFiles, hS]
    exact ⟨m, rfl⟩
  · rw [UploadFiles, StartIpfsNode_ok env.spawn st hsp]
    rcases h with hf | h1 | h2 | h3 | h4 | h5 | h6
    · exact absurd hf hsp
    · rcases he1 : env.statErr with _ | e1
      · exact absurd he1 h1
      · simp only [he1]; exact ⟨_, rfl⟩
    · rcases he1 : env.statErr with _ | e1
      · rcases he2 : env.serialErr with _ | e2
        · exact absurd he2 h2
        · simp only [he1, he2]; exact ⟨_, rfl⟩
      · simp only [he1]; exact ⟨_, rfl⟩
    · rcases he1 : env.statErr with _ | e1
      · rcases he2 : env.serialErr with _ | e2
        · rcases he3 : env.stat2Err with _ | e3
          · exact absurd he3 h3
          · simp only [he1, he2, he3]; exact ⟨_, rfl⟩
        · simp only [he1, he2]; exact ⟨_, rfl⟩
      · simp only [he1]; exact ⟨_, rfl⟩
    · rcases he1 : env.statErr with _ | e1
      · rcases he2 : env.serialErr with _ | e2
        · rcases he3 : env.stat2Err with _ | e3
          · rcases he4 : env.addErr with _ | e4
            · exact absurd he4 h4
            · simp only [he1, he2, he3, he4]; exact ⟨_, rfl⟩
          · simp only [he1, he2, he3]; exact ⟨_, rfl⟩
        · simp only [he1, he2]; exact ⟨_, rfl⟩
      · simp only [he1]; exact ⟨_, rfl⟩
    · rcases he1 : env.statErr with _ | e1
      · rcases he2 : env.serialErr with _ | e2
        · rcases he3 : env.stat2Err with _ | e3
          · rcases he4 : env.addErr with _ | e4
            · rcases he5 : env.lsErr with _ | e5
              · exact absurd he5 h5
              · simp only [he1, he2, he3, he4, he5]; exact ⟨_, rfl⟩
            · simp only [he1, he2, he3, he4]; exact ⟨_, rfl⟩
          · simp only [he1, he2, he3]; exact ⟨_, rfl⟩
        · simp only [he1, he2]; exact ⟨_, rfl⟩
      · simp only [he1]; exact ⟨_, rfl⟩
    · rcases he1 : env.statErr with _ | e1
      · rcases he2 : env.serialErr with _ | e2
        · rcases he3 : env.stat2Err with _ | e3
          · rcases he4 : env.addErr with _ | e4
            · rcases he5 : env.lsErr with _ | e5
              · rcases he6 : env.sizeErr with _ | e6
                · exact absurd he6 h6
                · simp only [he1, he2, he3, he4, he5, he6]; exact ⟨_, rfl⟩
              · simp only [he1, he2, he3, he4, he5]; exact ⟨_, rfl⟩
            · simp only [he1, he2, he3, he4]; exact ⟨_, rfl⟩
          · simp only [he1, he2, he3]; exact ⟨_, rfl⟩
        · simp only [he1, he2]; exact ⟨_, rfl⟩
      · simp only [he1]; exact ⟨_, rfl⟩

/-- Every condition that makes `DownloadFromCid` panic. -/
def downloadFatal (st : ProcState) (env : DownloadEnv) (s : GoStr) : Prop :=
  spawnFatal st env.spawn ∨ cidParseOk env (GetCidStrFromString s) = false ∨
    env.getErr ≠ none ∨ env.lsErr ≠ none ∨ env.mkdirErr ≠ none ∨
    env.writeErr ≠ none

theorem DownloadFromCid_ok (env : DownloadEnv) (st : ProcState) (s : GoStr)
    (hspawn : ¬ spawnFatal st env.spawn)
    (hp : cidParseOk env (GetCidStrFromString s) = true)
    (h1 : env.getErr = none) (h2 : env.lsErr = none)
    (h3 : env.mkdirErr = none) (h4 : env.writeErr = none) :
    DownloadFromCid env st s =
      ⟨.returned (strL "./Download/" ++ GetCidStrFromString s) none 100,
        some (GetCidStrFromString s), some (strL "Download"),
        some (pathClean (strL "./Download/" ++ GetCidStrFromString s)),
        ⟨true⟩, !st.pluginsDone⟩ := by
  rw [DownloadFromCid, StartIpfsNode_ok env.spawn st hspawn]
  simp only [hp, if_true, h1, h2, h3, h4]
  rfl

theorem DownloadFromCid_fatal (env : DownloadEnv) (st : ProcState) (s : GoStr)
    (h : downloadFatal st env s) :
    ∃ m, (DownloadFromCid env st s).outcome = .panicked m := by
  by_cases hsp : spawnFatal st env.spawn
  · obtain ⟨m, hm⟩ := StartIpfsNode_fatal env.spawn st hsp
    rcases hS : StartIpfsNode env.spawn st with ⟨r, st2, ran⟩
    rw [hS] at hm
    simp only at hm
    subst hm
    rw [DownloadFromCid, hS]
    exact ⟨m, rfl⟩
  · rw [DownloadFromCid, StartIpfsNode_ok env.spawn st hsp]
    by_cases hp : cidParseOk env (GetCidStrFromString s) = true
    · simp only [hp, if_true]
      rcases h with hf | hpf | h1 | h2 | h3 | h4
      · exact absurd hf hsp
      · rw [hp] at hpf; cases hpf
      · rcases he1 : env.getErr with _ | e1
        · exact absurd he1 h1
        · simp only [he1]; exact ⟨_, rfl⟩
      · rcases he1 : env.getErr with _ | e1
        · rcases he2 : env.lsErr with _ | e2
          · exact absurd he2 h2
          · simp only [he1, he2]; exact ⟨_, rfl⟩
        · simp only [he1]; exact ⟨_, rfl⟩
      · rcases he1 : env.getErr with _ | e1
        · rcases he2 : env.lsErr with _ | e2
          · rcases he3 : env.mkdirErr with _ | e3
            · exact absurd he3 h3
            · simp only [he1, he2, he3]; exact ⟨_, rfl⟩
          · simp only [he1, he2]; exact ⟨_, rfl⟩
        · simp only [he1]; exact ⟨_, rfl⟩
      · rcases he1 : env.getErr with _ | e1
        · rcases he2 : env.lsErr with _ | e2
          · rcases he3 : env.mkdirErr with _ | e3
            · rcases he4 : env.writeErr with _ | e4
              · exact absurd he4 h4
              · simp only [he1, he2, he3, he4]; exact ⟨_, rfl⟩
            · simp only [he1, he2, he3]; exact ⟨_, rfl⟩
          · simp only [he1, he2]; exact ⟨_, rfl⟩
        · simp only [he1]; exact ⟨_, rfl⟩
    · have hfalse : cidParseOk env (GetCidStrFromString s) = false :=
        Bool.eq_false_iff.mpr hp
      simp only [hfalse, Bool.false_eq_true, if_false]
      exact ⟨_, rfl⟩

theorem DownloadFromCid_parsedCidStr (env : DownloadEnv) (st : ProcState)
    (s : GoStr) :
    (DownloadFromCid env st s).parsedCidStr = none ∨
      (DownloadFromCid env st s).parsedCidStr = some (GetCidStrFromString s) := by
  by_cases hsp : spawnFatal st env.spawn
  · obtain ⟨m, hm⟩ := StartIpfsNode_fatal env.spawn st hsp
    rcases hS : StartIpfsNode env.spawn st with ⟨r, st2, ran⟩
    rw [hS] at hm
    simp only at hm
    subst hm
    left
    rw [DownloadFromCid, hS]
  · right
    rw [DownloadFromCid, StartIpfsNode_ok env.spawn st hsp]
    by_cases hp : cidParseOk env (GetCidStrFromString s) = true
    · simp only [hp, if_true]
      rcases he1 : env.getErr with _ | e1 <;> rcases he2 : env.lsErr with _ | e2 <;>
        rcases he3 : env.mkdirErr with _ | e3 <;>
        rcases he4 : env.writeErr with _ | e4 <;> simp only [he1, he2, he3, he4]
    · have hfalse : cidParseOk env (GetCidStrFromString s) = false :=
        Bool.eq_false_iff.mpr hp
      simp only [hfalse, Bool.false_eq_true, if_false]

/-! ## Evaluating `filepath.Clean` on the download output path -/

theorem splitOnChar_ne_nil (sep : Char) (s : GoStr) : splitOnChar sep s ≠ [] := by
  cases s with
  | nil => simp [splitOnChar]
  | cons x xs =>
    rw [splitOnChar]
    cases splitOnChar sep xs with
    | nil => simp
    | cons s1 rest => by_cases hx : x = sep <;> simp [hx]

theorem splitOnChar_not_mem {sep : Char} {s : GoStr} (h : sep ∉ s) :
    splitOnChar sep s = [s] := by
  induction s with
  | nil => rfl
  | cons x xs ih =>
    simp only [List.mem_cons, not_or] at h
    rw [splitOnChar, ih h.2]
    dsimp only
    rw [if_neg (fun he => h.1 he.symm)]

theorem splitOnChar_slash_append (pre rest : GoStr) (h : '/' ∉ pre) :
    splitOnChar '/' (pre ++ '/' :: rest) = pre :: splitOnChar '/' rest := by
  induction pre with
  | nil =>
    simp only [List.nil_append]
    rw [splitOnChar]
    rcases hsp : splitOnChar '/' rest with _ | ⟨s1, r⟩
    · exact absurd hsp (splitOnChar_ne_nil '/' rest)
    · simp
  | cons x pre' ih =>
    simp only [List.mem_cons, not_or] at h
    simp only [List.cons_append]
    rw [splitOnChar, ih h.2]
    dsimp only
    rw [if_neg (fun he => h.1 he.symm)]

theorem pathClean_download (c : GoStr) (hne : c ≠ []) (hsl : '/' ∉ c)
    (hdot : c ≠ ['.']) (hdd : c ≠ ['.', '.']) :
    pathClean (strL "./Download/" ++ c) = strL "Download/" ++ c := by
  have h0 : strL "./Download/" ++ c = ['.'] ++ '/' :: (strL "Download" ++ '/' :: c) := rfl
  have hsplit : splitOnChar '/' (['.'] ++ '/' :: (strL "Download" ++ '/' :: c)) =
      [['.'], strL "Download", c] := by
    rw [splitOnChar_slash_append ['.'] _ (by decide),
      splitOnChar_slash_append (strL "Download") _ (by decide),
      splitOnChar_not_mem hsl]
  have hne2 : ¬(c = [] ∨ c = ['.']) := fun hor => hor.elim hne hdot
  have hcore : pathCleanCore false [] [['.'], strL "Download", c] =
      [strL "Download", c] := by
    simp [pathCleanCore, strL, hne, hdot, hdd]
  have hrooted : ((['.'] ++ '/' :: (strL "Download" ++ '/' :: c)).head? ==
      some '/') = false := rfl
  have hjoin : joinSegs [strL "Download", c] = strL "Download" ++ '/' :: c := rfl
  rw [h0, pathClean]
  rw [if_neg (by simp : ¬(['.'] ++ '/' :: (strL "Download" ++ '/' :: c) = []))]
  simp only [hrooted, hsplit, hcore, hjoin]
  rw [if_neg (by decide : ¬((false : Bool) = true))]
  rw [if_neg (by simp [strL] : ¬(strL "Download" ++ '/' :: c = []))]
  rfl

/-! ## Sequences of `SpawnEphemeral` calls (for the init-once invariant) -/

/-- Run a sequence of `SpawnEphemeral` calls, counting how many of them
executed `SetupPlugins`. -/
def runSpawnSeq (st : ProcState) : List SpawnEnv → ProcState × Nat
  | [] => (st, 0)
  | env :: rest =>
    let r := SpawnEphemeral env st
    let f := runSpawnSeq r.2.1 rest
    (f.1, (if r.2.2 then 1 else 0) + f.2)

theorem SpawnEphemeral_state_done (env : SpawnEnv) (st : ProcState) :
    (SpawnEphemeral env st).2.1.pluginsDone = true := by
  rcases st with ⟨b⟩
  cases b with
  | true => rw [SpawnEphemeral, if_pos rfl]
  | false =>
    rw [SpawnEphemeral, if_neg (by simp)]
    cases env.setupErr <;> rfl

theorem SpawnEphemeral_skips_when_done (env : SpawnEnv) (st : ProcState)
    (h : st.pluginsDone = true) :
    (SpawnEphemeral env st).2.2 = false ∧ (SpawnEphemeral env st).2.1 = st := by
  rw [SpawnEphemeral, if_pos h]
  exact ⟨rfl, rfl⟩

theorem runSpawnSeq_done (envs : List SpawnEnv) :
    ∀ st : ProcState, st.pluginsDone = true → (runSpawnSeq st envs).2 = 0 := by
  induction envs with
  | nil => intro st _; rfl
  | cons env rest ih =>
    intro st hdone
    obtain ⟨hran, hst⟩ := SpawnEphemeral_skips_when_done env st hdone
    rw [runSpawnSeq]
    simp only [hran, hst]
    rw [ih st hdone]
    rfl

/-! ## Consequences for runs that return normally -/

theorem cidShaped_props {c : GoStr} (h : cidShaped c = true) :
    c ≠ [] ∧ '/' ∉ c ∧ c ≠ ['.'] ∧ c ≠ ['.', '.'] := by
  rw [cidShaped, Bool.and_eq_true] at h
  obtain ⟨h1, h2⟩ := h
  have hall : ∀ ch ∈ c, ch.isAlphanum = true := List.all_eq_true.mp h2
  refine ⟨?_, ?_, ?_, ?_⟩
  · intro hc; subst hc; simp at h1
  · intro hmem; exact absurd (hall '/' hmem) (by decide)
  · intro hc; subst hc; exact absurd (hall '.' (by simp)) (by decide)
  · intro hc; subst hc; exact absurd (hall '.' (by simp)) (by decide)

theorem UploadFiles_returned_shape (env : UploadEnv) (st : ProcState) (p : GoStr)
    (c : GoStr) (e : Option GoErr)
    (h : (UploadFiles env st p).outcome = .returned c e) :
    e = none ∧ c = env.addCid ∧
      (UploadFiles env st p).printedCid = some env.addCid := by
  have hnf : ¬ uploadFatal st env := by
    intro hf
    obtain ⟨m, hm⟩ := UploadFiles_fatal env st p hf
    rw [h] at hm
    cases hm
  rw [uploadFatal] at hnf
  push_neg at hnf
  obtain ⟨hsp, h1, h2, h3, h4, h5, h6⟩ := hnf
  rw [UploadFiles_ok env st p hsp h1 h2 h3 h4 h5 h6] at h ⊢
  rcases hf : env.signals.find? (fun s => isTermSignal s) with _ | sg
  · simp only [hf] at h
    cases h
  · simp only [hf] at h
    injection h with hc he
    exact ⟨he.symm, hc.symm, rfl⟩

theorem DownloadFromCid_returned_shape (env : DownloadEnv) (st : ProcState)
    (s : GoStr) (o : GoStr) (e : Option GoErr) (pr : Int)
    (h : (DownloadFromCid env st s).outcome = .returned o e pr) :
    o = strL "./Download/" ++ GetCidStrFromString s ∧ e = none ∧ pr = 100 ∧
      (DownloadFromCid env st s).mkdirArg = some (strL "Download") ∧
      (DownloadFromCid env st s).writeTarget =
        some (pathClean (strL "./Download/" ++ GetCidStrFromString s)) ∧
      cidShaped (GetCidStrFromString s) = true := by
  have hnf : ¬ downloadFatal st env s := by
    intro hf
    obtain ⟨m, hm⟩ := DownloadFromCid_fatal env st s hf
    rw [h] at hm
    cases hm
  rw [downloadFatal] at hnf
  push_neg at hnf
  obtain ⟨hsp, hpf, h1, h2, h3, h4⟩ := hnf
  have hp : cidParseOk env (GetCidStrFromString s) = true := by
    cases hcp : cidParseOk env (GetCidStrFromString s)
    · exact absurd hcp hpf
    · rfl
  have hshape : cidShaped (GetCidStrFromString s) = true := by
    rw [cidParseOk, Bool.and_eq_true] at hp
    exact hp.2
  rw [DownloadFromCid_ok env st s hsp hp h1 h2 h3 h4] at h ⊢
  simp only at h
  injection h with ho he hpr
  exact ⟨ho.symm, he.symm, hpr.symm, rfl, rfl, hshape⟩

/-! ## Claims -/

/-- C1: Round-trip — fetching the CID produced by publishing an input
reconstructs the input byte-for-byte with directory structure and names
preserved: a directory input is reconstructed exactly; a single-file input
is reconstructed as the one-entry directory (keyed by the file's base
name, holding the identical bytes) that `UploadFiles` wraps it in before
publishing. -/
theorem C1_upload_download_roundtrip (inst : NodeInstance) (path : GoStr)
    (input : FSTree) :
    fetchDag (UploadFilesPure inst path input).cid = some (wrapInput path input) ∧
    (∀ es, input = .dir es → wrapInput path input = input) ∧
    (∀ d, input = .file d →
      wrapInput path input = .dir (.cons (goFilepathBase path) (.file d) .nil)) := by
  refine ⟨?_, ?_, ?_⟩
  · show fetchDag (serNode (buildTree (wrapInput path input))) = _
    exact fetchDag_buildTree (wrapInput path input)
  · intro es h
    subst h
    rfl
  · intro d h
    subst h
    rfl

theorem C1_upload_download_roundtrip_witness :
    fetchDag (UploadFilesPure ⟨[], []⟩ (strL "photo.jpg") (.file [7, 8, 9])).cid =
      some (.dir (.cons (goFilepathBase (strL "photo.jpg"))
        (.file [7, 8, 9]) .nil)) := by
  have h := C1_upload_download_roundtrip ⟨[], []⟩ (strL "photo.jpg") (.file [7, 8, 9])
  exact h.1.trans (congrArg some (h.2.2 [7, 8, 9] rfl))

/-- C2: Determinism of publishing — the root CID (and its printed string)
depends only on the input tree and publish path, not on the node/store
instance, and repeated runs on the same instance print the same CID. -/
theorem C2_upload_deterministic (instA instB : NodeInstance) (path : GoStr)
    (input : FSTree) :
    (UploadFilesPure instA path input).cid = (UploadFilesPure instB path input).cid ∧
    (UploadFilesPure instA path input).cidStr =
      (UploadFilesPure instB path input).cidStr ∧
    (UploadFilesPure (UploadFilesPure instA path input).inst path input).cid =
      (UploadFilesPure instA path input).cid :=
  ⟨rfl, rfl, rfl⟩

/-- C3: Fetch with no providers terminates with the `NoProvidersFound`
error within the given deadline rather than hanging: whenever every
`FindProviders` lookup comes back empty, provider discovery reports
`noProviders` at a time bounded by the deadline. -/
theorem C3_fetch_noProviders_within_deadline (oracle : Nat → List Nat)
    (cfg : FetchCfg) (hempty : ∀ i, oracle i = []) :
    ∃ t, FetchProviders oracle cfg = .noProviders t ∧ t ≤ cfg.deadline :=
  providerDiscovery_noProviders oracle cfg hempty cfg.retryBudget 0 0 (Nat.zero_le _)

theorem C3_fetch_noProviders_witness :
    ∃ t, FetchProviders (fun _ => []) ⟨2000, 300, 5⟩ = .noProviders t ∧ t ≤ 2000 :=
  C3_fetch_noProviders_within_deadline (fun _ => []) ⟨2000, 300, 5⟩ (fun _ => rfl)

/-- C4: `GetCidStrFromString` returns the suffix of its input after the
last `'/'` (all of the input when it has no `'/'`), with leading and
trailing spaces, carriage returns and newlines trimmed; in particular
`"/ipfs/<cid>"` yields `"<cid>"`.  It is total (the empty string is
handled), and the download path hands exactly this stripped string to
`cid.Parse`. -/
theorem C4_getCidStr_spec :
    (∀ s : GoStr, GetCidStrFromString s =
      goTrim (dropThroughLastSlash s) cidTrimCutset) ∧
    (∀ s : GoStr, '/' ∉ s → dropThroughLastSlash s = s) ∧
    (∀ a b : GoStr, '/' ∉ b → dropThroughLastSlash (a ++ '/' :: b) = b) ∧
    (∀ cid : GoStr, '/' ∉ cid → goTrim cid cidTrimCutset = cid →
      GetCidStrFromString (strL "/ipfs/" ++ cid) = cid) ∧
    GetCidStrFromString [] = [] ∧
    (∀ (env : DownloadEnv) (st : ProcState) (s : GoStr),
      (DownloadFromCid env st s).parsedCidStr = none ∨
        (DownloadFromCid env st s).parsedCidStr =
          some (GetCidStrFromString s)) := by
  refine ⟨GetCidStrFromString_eq, ?_, ?_, ?_, rfl, DownloadFromCid_parsedCidStr⟩
  · exact fun s h => dropThroughLastSlash_of_not_mem h
  · exact fun a b h => dropThroughLastSlash_append a h
  · intro cid hsl htrim
    have h0 : strL "/ipfs/" ++ cid = ['/', 'i', 'p', 'f', 's'] ++ '/' :: cid := rfl
    rw [h0, GetCidStrFromString_eq, dropThroughLastSlash_append _ hsl, htrim]

theorem C4_getCidStr_witness :
    GetCidStrFromString (strL "/ipfs/QmXyZ123") = strL "QmXyZ123" :=
  C4_getCidStr_spec.2.2.2.1 (strL "QmXyZ123") (by decide) (by decide)

/-- C5: Fetch output location — every successful `DownloadFromCid` of a
CID string `c` returns `"./Download/" ++ c` as `outputPath` (with
`progress` 100), creates the `Download` directory, and writes the fetched
files at `filepath.Clean` of that path, i.e. at `"Download/" ++ c` — a
fixed output directory named by the CID. -/
theorem C5_fetch_output_location (env : DownloadEnv) (st : ProcState)
    (s o : GoStr) (e : Option GoErr) (pr : Int)
    (h : (DownloadFromCid env st s).outcome = .returned o e pr) :
    o = strL "./Download/" ++ GetCidStrFromString s ∧
    (DownloadFromCid env st s).mkdirArg = some (strL "Download") ∧
    (DownloadFromCid env st s).writeTarget =
      some (strL "Download/" ++ GetCidStrFromString s) ∧
    pr = 100 := by
  obtain ⟨ho, he, hpr, hmk, hwt, hshape⟩ :=
    DownloadFromCid_returned_shape env st s o e pr h
  obtain ⟨hne, hsl, hdot, hdd⟩ := cidShaped_props hshape
  rw [pathClean_download _ hne hsl hdot hdd] at hwt
  exact ⟨ho, hmk, hwt, hpr⟩

theorem C5_fetch_output_location_witness :
    strL "./Download/QmAbC" = strL "./Download/" ++ GetCidStrFromString (strL "QmAbC") ∧
    (DownloadFromCid ⟨⟨none, none, none, none, strL "/tmp/r"⟩, true, none, none,
        none, none⟩ initialProcState (strL "QmAbC")).mkdirArg =
      some (strL "Download") ∧
    (DownloadFromCid ⟨⟨none, none, none, none, strL "/tmp/r"⟩, true, none, none,
        none, none⟩ initialProcState (strL "QmAbC")).writeTarget =
      some (strL "Download/" ++ GetCidStrFromString (strL "QmAbC")) ∧
    (100 : Int) = 100 :=
  C5_fetch_output_location
    ⟨⟨none, none, none, none, strL "/tmp/r"⟩, true, none, none, none, none⟩
    initialProcState (strL "QmAbC") (strL "./Download/QmAbC") none 100 (by decide)

/-- C6: Publish-mode termination — after a successful add, `UploadFiles`
blocks on the signal channel: it returns (and publish mode exits with
status 0) exactly when a SIGINT or SIGTERM is delivered, and stays blocked
(no exit) when no termination signal ever arrives. -/
theorem C6_publish_blocks_until_termination_signal (env : UploadEnv)
    (st : ProcState) (p : GoStr) (hok : ¬ uploadFatal st env) :
    ((∃ c e, (UploadFiles env st p).outcome = .returned c e) ↔
      ∃ sg ∈ env.signals, isTermSignal sg = true) ∧
    ((∀ sg ∈ env.signals, isTermSignal sg = false) →
      (UploadFiles env st p).outcome = .blocked) ∧
    publishExitCode .blocked = none ∧
    (∀ c e, (UploadFiles env st p).outcome = .returned c e →
      publishExitCode ((UploadFiles env st p).outcome) = some 0) := by
  rw [uploadFatal] at hok
  push_neg at hok
  obtain ⟨hsp, h1, h2, h3, h4, h5, h6⟩ := hok
  rw [UploadFiles_ok env st p hsp h1 h2 h3 h4 h5 h6]
  rcases hf : env.signals.find? (fun s => isTermSignal s) with _ | sg
  · simp only [hf]
    refine ⟨⟨?_, ?_⟩, ?_, rfl, ?_⟩
    · rintro ⟨c, e, hce⟩
      cases hce
    · rintro ⟨sg, hmem, hterm⟩
      have hno := List.find?_eq_none.mp hf sg hmem
      rw [hterm] at hno
      exact absurd rfl hno
    · intro _
      trivial
    · intro c e hce
      cases hce
  · simp only [hf]
    have hterm : isTermSignal sg = true := List.find?_some hf
    have hmem : sg ∈ env.signals := List.mem_of_find?_eq_some hf
    refine ⟨⟨fun _ => ⟨sg, hmem, hterm⟩, fun _ => ⟨env.addCid, none, rfl⟩⟩, ?_, rfl, ?_⟩
    · intro hall
      rw [hall sg hmem] at hterm
      cases hterm
    · intro c e _
      rfl

theorem C6_publish_blocks_witness :
    ∃ c e, (UploadFiles ⟨⟨none, none, none, none, strL "/tmp/r"⟩, none, none,
        none, false, none, strL "QmRoot", none, none,
        [GoSignal.other 9, GoSignal.sigterm]⟩
      initialProcState (strL "a.txt")).outcome = .returned c e :=
  ((C6_publish_blocks_until_termination_signal
      ⟨⟨none, none, none, none, strL "/tmp/r"⟩, none, none, none, false, none,
        strL "QmRoot", none, none, [GoSignal.other 9, GoSignal.sigterm]⟩
      initialProcState (strL "a.txt")
      (by simp [uploadFatal, spawnFatal, initialProcState])).1).mpr
    ⟨.sigterm, by decide, rfl⟩

/-- C7: Error propagation — every internal fatal error (node startup,
stat/read, Add, CID parse, Get, Ls, directory creation, write) makes
`UploadFiles` or `DownloadFromCid` panic, terminating the process with the
non-zero panic exit status; consequently, whenever either function returns
normally its `err` result is nil. -/
theorem C7_error_propagation :
    (∀ (env : UploadEnv) (st : ProcState) (p c : GoStr) (e : Option GoErr),
      (UploadFiles env st p).outcome = .returned c e → e = none) ∧
    (∀ (env : DownloadEnv) (st : ProcState) (s o : GoStr) (e : Option GoErr)
      (pr : Int),
      (DownloadFromCid env st s).outcome = .returned o e pr → e = none) ∧
    (∀ (env : UploadEnv) (st : ProcState) (p : GoStr), uploadFatal st env →
      ∃ m, (UploadFiles env st p).outcome = .panicked m) ∧
    (∀ (env : DownloadEnv) (st : ProcState) (s : GoStr), downloadFatal st env s →
      ∃ m, (DownloadFromCid env st s).outcome = .panicked m) ∧
    (∀ m, publishExitCode (.panicked m) = some goPanicExitCode ∧
      fetchExitCode (.panicked m) = goPanicExitCode ∧ goPanicExitCode ≠ 0) := by
  refine ⟨?_, ?_, UploadFiles_fatal, DownloadFromCid_fatal, ?_⟩
  · intro env st p c e h
    exact (UploadFiles_returned_shape env st p c e h).1
  · intro env st s o e pr h
    exact (DownloadFromCid_returned_shape env st s o e pr h).2.1
  · intro m
    exact ⟨rfl, rfl, by decide⟩

theorem C7_error_propagation_witness :
    (none : Option GoErr) = none ∧
    ∃ m, (UploadFiles ⟨⟨none, none, none, none, strL "/tmp/r"⟩,
        some (strL "no such file"), none, none, false, none, strL "QmRoot",
        none, none, []⟩
      initialProcState (strL "missing.txt")).outcome = .panicked m :=
  ⟨C7_error_propagation.1
      ⟨⟨none, none, none, none, strL "/tmp/r"⟩, none, none, none, false, none,
        strL "QmRoot", none, none, [GoSignal.sigint]⟩
      initialProcState (strL "a.txt") (strL "QmRoot") none (by decide),
    C7_error_propagation.2.2.1
      ⟨⟨none, none, none, none, strL "/tmp/r"⟩, some (strL "no such file"), none,
        none, false, none, strL "QmRoot", none, none, []⟩
      initialProcState (strL "missing.txt")
      (by simp [uploadFatal, spawnFatal, initialProcState])⟩

/-- C8: Mode exclusivity — a non-empty `-c` always runs the download (the
`-f` value is ignored: the action does not depend on it), an empty `-c`
with non-empty `-f` runs the upload, neither flag prints only the usage
text, at most one of the two operations is selected, and publish mode
prints the root CID it returns. -/
theorem C8_mode_exclusivity :
    (∀ c f : GoStr, c ≠ [] → mainAction c f = .download c) ∧
    (∀ c f f' : GoStr, c ≠ [] → mainAction c f = mainAction c f') ∧
    (∀ f : GoStr, f ≠ [] → mainAction [] f = .upload f) ∧
    mainAction [] [] = .usage ∧
    (∀ c f : GoStr, ¬((∃ a, mainAction c f = .download a) ∧
      (∃ b, mainAction c f = .upload b))) ∧
    (∀ (env : UploadEnv) (st : ProcState) (p c : GoStr) (e : Option GoErr),
      (UploadFiles env st p).outcome = .returned c e →
      (UploadFiles env st p).printedCid = some c) := by
  refine ⟨?_, ?_, ?_, ?_, ?_, ?_⟩
  · intro c f hc
    rw [mainAction, if_pos (Or.inl hc), if_pos hc]
  · intro c f f' hc
    rw [mainAction, if_pos (Or.inl hc), if_pos hc,
      mainAction, if_pos (Or.inl hc), if_pos hc]
  · intro f hf
    rw [mainAction, if_pos (Or.inr hf), if_neg (by simp), if_pos hf]
  · rw [mainAction, if_neg (by simp)]
  · rintro c f ⟨⟨a, ha⟩, ⟨b, hb⟩⟩
    rw [ha] at hb
    cases hb
  · intro env st p c e h
    obtain ⟨_, hc, hp⟩ := UploadFiles_returned_shape env st p c e h
    rw [hp, hc]

theorem C8_mode_exclusivity_witness :
    mainAction (strL "QmA") (strL "f.txt") = .download (strL "QmA") ∧
    mainAction [] (strL "f.txt") = .upload (strL "f.txt") ∧
    mainAction [] [] = .usage :=
  ⟨C8_mode_exclusivity.1 (strL "QmA") (strL "f.txt") (by decide),
    C8_mode_exclusivity.2.2.1 (strL "f.txt") (by decide),
    C8_mode_exclusivity.2.2.2.1⟩

/-- C9 (counterexample): the claim that a recorded first-call error is
what subsequent `SpawnEphemeral` calls return is false — when the first
call's `SetupPlugins` fails, a second call returns `ok`, not the recorded
error, because the local `onceErr` is nil whenever `loadPluginsOnce.Do`
skips its function. -/
theorem C9_once_error_counterexample :
    (SpawnEphemeral ⟨some (strL "plugin boom"), none, none, none, strL "/tmp/r"⟩
        initialProcState).1 = .err (strL "plugin boom") ∧
    (SpawnEphemeral ⟨some (strL "plugin boom"), none, none, none, strL "/tmp/r"⟩
        (SpawnEphemeral ⟨some (strL "plugin boom"), none, none, none,
          strL "/tmp/r"⟩ initialProcState).2.1).1 = .ok (strL "/tmp/r") ∧
    (SpawnEphemeral ⟨some (strL "plugin boom"), none, none, none, strL "/tmp/r"⟩
        (SpawnEphemeral ⟨some (strL "plugin boom"), none, none, none,
          strL "/tmp/r"⟩ initialProcState).2.1).1 ≠
      .err (strL "plugin boom") := by decide

/-- C9 (amended): `SetupPlugins` is executed at most once per process
regardless of how many times `SpawnEphemeral` is invoked, and every later
invocation observes the already-initialized state (it skips setup and
leaves the state unchanged); however, a first-call error is not
re-returned — once initialization has happened, the result of
`SpawnEphemeral` is independent of any recorded setup error. -/
theorem C9_init_once_amended :
    (∀ envs : List SpawnEnv, (runSpawnSeq initialProcState envs).2 ≤ 1) ∧
    (∀ (env : SpawnEnv) (st : ProcState), st.pluginsDone = true →
      (SpawnEphemeral env st).2.2 = false ∧ (SpawnEphemeral env st).2.1 = st) ∧
    (∀ (env : SpawnEnv) (st : ProcState) (x y : Option GoErr),
      st.pluginsDone = true →
      SpawnEphemeral ⟨x, env.repoErr, env.nodeErr, env.apiErr, env.repoPath⟩ st =
        SpawnEphemeral ⟨y, env.repoErr, env.nodeErr, env.apiErr, env.repoPath⟩ st) := by
  refine ⟨?_, SpawnEphemeral_skips_when_done, ?_⟩
  · intro envs
    cases envs with
    | nil => exact Nat.zero_le 1
    | cons env rest =>
      show (if (SpawnEphemeral env initialProcState).2.2 then 1 else 0) +
          (runSpawnSeq (SpawnEphemeral env initialProcState).2.1 rest).2 ≤ 1
      rw [runSpawnSeq_done rest _ (SpawnEphemeral_state_done env initialProcState)]
      cases (SpawnEphemeral env initialProcState).2.2 <;> simp
  · intro env st x y h
    rw [SpawnEphemeral, SpawnEphemeral, if_pos h, if_pos h]
    rfl

theorem C9_init_once_witness :
    SpawnEphemeral ⟨some (strL "late boom"), none, none, none, strL "/tmp/q"⟩
        ⟨true⟩ =
      SpawnEphemeral ⟨none, none, none, none, strL "/tmp/q"⟩ ⟨true⟩ :=
  C9_init_once_amended.2.2 ⟨none, none, none, none, strL "/tmp/q"⟩ ⟨true⟩
    (some (strL "late boom")) none rfl

/-- C10: Single-file directory wrapping — when the published input is a
plain file rather than a directory, `UploadFiles` wraps it in a one-entry
slice directory keyed by `filepath.Base` of the input path before handing
it to the library's `Add` (the workaround of src/main.go:186-197 for the
library's write-target limitation); a directory input is handed over
unchanged. -/
theorem C10_single_file_wrapping :
    (∀ (env : UploadEnv) (st : ProcState) (p : GoStr),
      ¬ spawnFatal st env.spawn → env.statErr = none → env.serialErr = none →
      env.stat2Err = none → env.isDir = false →
      (UploadFiles env st p).addArg =
        some (.sliceDirectory (goFilepathBase p) p)) ∧
    (∀ (env : UploadEnv) (st : ProcState) (p : GoStr),
      ¬ spawnFatal st env.spawn → env.statErr = none → env.serialErr = none →
      env.stat2Err = none → env.isDir = true →
      (UploadFiles env st p).addArg = some (.serialFile p)) ∧
    (∀ (p : GoStr) (d : Bytes), wrapInput p (.file d) =
      .dir (.cons (goFilepathBase p) (.file d) .nil)) ∧
    (∀ (p : GoStr) (es : FSEntries), wrapInput p (.dir es) = .dir es) := by
  refine ⟨?_, ?_, fun p d => rfl, fun p es => rfl⟩
  · rintro ⟨sp, se1, se2, se3, sd, sa, sc, sl, ss, sg⟩ st p hsp h1 h2 h3 hdir
    dsimp only at h1 h2 h3 hdir hsp
    subst h1
    subst h2
    subst h3
    subst hdir
    rw [UploadFiles, StartIpfsNode_ok sp st hsp]
    rcases sa with _ | e4 <;> rcases sl with _ | e5 <;> rcases ss with _ | e6 <;>
      cases sg.find? (fun s => isTermSignal s) <;> rfl
  · rintro ⟨sp, se1, se2, se3, sd, sa, sc, sl, ss, sg⟩ st p hsp h1 h2 h3 hdir
    dsimp only at h1 h2 h3 hdir hsp
    subst h1
    subst h2
    subst h3
    subst hdir
    rw [UploadFiles, StartIpfsNode_ok sp st hsp]
    rcases sa with _ | e4 <;> rcases sl with _ | e5 <;> rcases ss with _ | e6 <;>
      cases sg.find? (fun s => isTermSignal s) <;> rfl

theorem C10_single_file_wrapping_witness :
    (UploadFiles ⟨⟨none, none, none, none, strL "/tmp/r"⟩, none, none, none,
        false, none, strL "QmRoot", none, none, []⟩ initialProcState
      (strL "pics/cat.png")).addArg =
      some (.sliceDirectory (goFilepathBase (strL "pics/cat.png"))
        (strL "pics/cat.png")) :=
  C10_single_file_wrapping.1
    ⟨⟨none, none, none, none, strL "/tmp/r"⟩, none, none, none, false, none,
      strL "QmRoot", none, none, []⟩
    initialProcState (strL "pics/cat.png")
    (by simp [spawnFatal, initialProcState]) rfl rfl rfl rfl

end FileShare
